import Mathlib

/-!
Shallow embedding of the MONAI transform modules
(`monai/transforms/utils.py`, `monai/transforms/transforms.py`,
`monai/transforms/utility/dictionary.py`) together with theorems settling
the specification claims about them.

Conventions used throughout:
* numpy float values are modelled as exact rationals (`ℚ`) where only
  exact arithmetic is exercised, and as reals (`ℝ`) where trigonometric
  functions occur; the `dtype` casts of the source (`astype(float32)`)
  are value-preserving on every input the theorems use, so they are
  modelled as the identity;
* numpy integer values are modelled as `ℤ` (Python `%` and `//` are
  floored operations, matching `Int.emod` / `Int.fdiv`);
* a Python exception is modelled with `Except String`;
* a numpy array is modelled as a (nested) list of its elements, or, for
  the coordinate-grid code, as a function from channel and multi-index
  to the stored value.
-/

namespace MonaiSpec

/-- Python `None`-able numpy dtype arguments, as stored by the transforms. -/
inductive DType where
  | float32
  | float64
  | int32
  | uint8
deriving DecidableEq, Repr

/-- A Python value that may be passed where the source expects either a
numpy array or some other (scalar) object; used for `isinstance` checks. -/
inductive PyVal where
  | arr (data : List ℚ)
  | num (x : ℚ)
deriving DecidableEq, Repr

/-- `isinstance(v, np.ndarray)` on a `PyVal`. -/
def PyVal.isNdarray : PyVal → Bool
  | .arr _ => true
  | .num _ => false

/-! ### `monai.transforms.utils.rescale_array`

The element values are modelled over `ℚ`; `np.min` / `np.max` over the
flattened array are folds over the element list (undefined on the empty
array in numpy, so the theorems assume a nonempty list).
-/

/-- `np.min` over the flattened element list (first element seeds the fold). -/
def listMin : List ℚ → ℚ
  | [] => 0
  | x :: xs => xs.foldl min x

/-- `np.max` over the flattened element list (first element seeds the fold). -/
def listMax : List ℚ → ℚ
  | [] => 0
  | x :: xs => xs.foldl max x

/-- Embedding of `rescale_array(arr, minv, maxv, dtype)`.  The `astype`
cast is the identity in this model (see module docstring).  If the array
is constant the source returns `arr * minv`; otherwise it normalises to
`[0,1]` and then linearly rescales to `[minv, maxv]`. -/
def rescale_array (arr : List ℚ) (minv maxv : ℚ) : List ℚ :=
  let mina := listMin arr
  let maxa := listMax arr
  if mina = maxa then
    arr.map (fun x => x * minv)
  else
    arr.map (fun x => (x - mina) / (maxa - mina) * (maxv - minv) + minv)

/-! ### `monai.transforms.transforms.IntensityNormalizer.__init__` -/

/-- The fields stored by `IntensityNormalizer.__init__` when the
constructor's validation passes. -/
structure IntensityNormalizer where
  subtrahend : Option PyVal
  divisor : Option PyVal
  dtype : DType
deriving DecidableEq, Repr

/-- Embedding of `IntensityNormalizer.__init__`: if `subtrahend is not
None or divisor is not None`, it asserts that **both** are numpy arrays,
raising `AssertionError` otherwise; then it stores the fields. -/
def IntensityNormalizer.init (subtrahend divisor : Option PyVal)
    (dtype : DType) : Except String IntensityNormalizer :=
  if subtrahend.isSome || divisor.isSome then
    if (subtrahend.elim false PyVal.isNdarray) && (divisor.elim false PyVal.isNdarray) then
      .ok ⟨subtrahend, divisor, dtype⟩
    else
      .error "AssertionError: subtrahend and divisor must be set in pair and in numpy array."
  else
    .ok ⟨subtrahend, divisor, dtype⟩

/-! ### `monai.transforms.transforms.Rand3DElastic`

Only the state and control flow relevant to the branch decision are
modelled.  The constructor stores `prob`, `do_transform = False`,
`alpha = 1.0`, `sigma = 1.0` (it does **not** store `alpha_range` or
`sigma_range`).  `randomise` first assigns `do_transform` from a fresh
uniform draw compared against `prob`; every continuation of `randomise`
then dereferences attributes the constructor never set
(`self.rand_offset` via `self.R.random.uniform`, `self.alpha_range`),
which raises `AttributeError` in Python; the model records the completed
`do_transform` write together with that error.  `__call__` tests
`self.do_transform` **before** any call to `randomise`: `randomise` is
only reached inside the deformation branch. -/

/-- Which grid the call builds: the dense identity grid or the
deformation grid. -/
inductive GridBranch where
  | identity
  | deform
deriving DecidableEq, Repr

/-- Fields of `Rand3DElastic` assigned by its constructor that take part
in the randomisation state (`self.R`, the resampler and the affine-grid
helper carry no branch-relevant state). -/
structure Rand3DElastic where
  prob : ℚ
  do_transform : Bool
  alpha : ℚ
  sigma : ℚ
deriving DecidableEq, Repr

/-- Embedding of `Rand3DElastic.__init__(...)`: `do_transform = False`,
`alpha = 1.0`, `sigma = 1.0`. -/
def Rand3DElastic.init (prob : ℚ) : Rand3DElastic :=
  { prob := prob, do_transform := false, alpha := 1, sigma := 1 }

/-- Embedding of `Rand3DElastic.randomise`: assigns
`do_transform = R.rand() < prob` (the fresh gate draw is the `gate`
argument), then raises `AttributeError` on both continuations (see
section comment).  The mutated state survives the exception, as in
Python. -/
def Rand3DElastic.randomise (t : Rand3DElastic) (gate : ℚ) :
    Rand3DElastic × Option String :=
  ({ t with do_transform := decide (gate < t.prob) }, some "AttributeError")

/-- Embedding of the branch structure of `Rand3DElastic.__call__`:
the branch is chosen by the current value of `self.do_transform`;
`randomise` runs only inside the deformation branch (after the grid has
been created), never before the branch test.  The returned triple is the
branch taken, the post-call state and the exception raised, if any. -/
def Rand3DElastic.call (t : Rand3DElastic) (gate : ℚ) :
    GridBranch × Rand3DElastic × Option String :=
  if t.do_transform then
    let r := t.randomise gate
    (GridBranch.deform, r.1, r.2)
  else
    (GridBranch.identity, t, none)

/-! ### `monai.transforms.utils.copypaste_arrays`

Shapes, centers and window sizes are Python ints, modelled as `ℤ`
(`dim // 2` is floored division, `np.clip(x, lo, hi)` is
`min (max x lo) hi`).  A per-axis slice is `none` for Python's
`slice(None)` (whole axis) and `some (a, b)` for `slice(a, b)`. -/

/-- `np.clip(x, lo, hi)` on integers: `np.minimum(np.maximum(x, lo), hi)`. -/
def npclip (x lo hi : ℤ) : ℤ := min (max x lo) hi

/-- Body of the per-axis loop of `copypaste_arrays` for one entry of
`zip(range(src.ndim), src.shape, dest.shape, srccenter, destcenter, dims)`:
when `dim` is truthy (nonzero) it computes the clipped half-windows `d1`
(before the center) and `d2` (after the center) and the resulting source
and destination slices; otherwise the axis keeps `slice(None)` on both
sides. -/
def cpAxis (ss ds sc dc dim : ℤ) : Option (ℤ × ℤ) × Option (ℤ × ℤ) :=
  if dim ≠ 0 then
    let d1 := npclip (Int.fdiv dim 2) 0 (min sc dc)
    let d2 := npclip (Int.fdiv dim 2 + 1) 0 (min (ss - sc) (ds - dc))
    (some (sc - d1, sc + d2), some (dc - d1, dc + d2))
  else
    (none, none)

/-- The `for ... in zip(...)` loop of `copypaste_arrays`: runs `cpAxis`
over the five lists for as long as all of them (and `range(src.ndim)`,
whose length equals `srcShape.length`) have entries, exactly like
Python's `zip`. -/
def cpLoop : List ℤ → List ℤ → List ℤ → List ℤ → List ℤ →
    List (Option (ℤ × ℤ) × Option (ℤ × ℤ))
  | ss :: ssl, ds :: dsl, sc :: scl, dc :: dcl, dim :: dl =>
      cpAxis ss ds sc dc dim :: cpLoop ssl dsl scl dcl dl
  | _, _, _, _, _ => []

/-- Embedding of `copypaste_arrays(src, dest, srccenter, destcenter, dims)`
restricted to what the function reads of its array arguments: their
shapes.  `srcslices` / `destslices` start as `[slice(None)] * ndim` and
the loop overwrites the first `zip`-length entries. -/
def copypaste_arrays (srcShape destShape srccenter destcenter dims : List ℤ) :
    List (Option (ℤ × ℤ)) × List (Option (ℤ × ℤ)) :=
  let zs := cpLoop srcShape destShape srccenter destcenter dims
  (zs.map Prod.fst ++ List.replicate (srcShape.length - zs.length) none,
   zs.map Prod.snd ++ List.replicate (destShape.length - zs.length) none)

/-- Number of elements a per-axis slice selects from an axis of extent
`size`: `slice(None)` selects the whole axis; `slice(a, b)` with
non-negative bounds selects `max 0 (min b size - max a 0)` elements
(numpy's negative-index wraparound does not occur in the in-bounds
situations the theorems below consider). -/
def sliceLen (size : ℤ) : Option (ℤ × ℤ) → ℤ
  | none => size
  | some (a, b) => max 0 (min b size - max a 0)

/-! ### `monai.transforms.utils.one_hot`

`labels` is an integer array, modelled by its flattened element list
(`one_hot` itself flattens and the final `reshape` is a bijective
re-indexing); numpy's `%` on a positive modulus returns non-negative
representatives, like `Int.emod`.  The `astype(labels.dtype)` cast turns
the float `0.0`/`1.0` entries of `np.eye` back into the integer dtype,
which is exact, so rows are modelled over `ℤ` directly. -/

/-- `np.eye(n)` as a list of rows. -/
def npEye (n : ℕ) : List (List ℤ) :=
  (List.range n).map fun i => (List.range n).map fun j => if i = j then 1 else 0

/-- Embedding of `one_hot(labels, num_classes)`: reduce every label
modulo `num_classes`, then index the rows of `np.eye(num_classes)` with
the reduced labels (all of which lie in `[0, num_classes)` when
`num_classes ≥ 1`, so the `getD` default is never taken there). -/
def one_hot (labels : List ℤ) (num_classes : ℕ) : List (List ℤ) :=
  let reduced := labels.map (fun v => v % (num_classes : ℤ))
  reduced.map (fun v => (npEye num_classes).getD v.toNat [])

/-! ### `monai.transforms.utils.create_grid`

`create_grid(spatial_size, spacing=None, homogeneous=True)` builds
`linspace(-(d-1)/2*s, (d-1)/2*s, d)` per axis, combines the axes with
`meshgrid(..., indexing='ij')` and appends an all-ones channel.  The
resulting array of shape `(ndims+1, *spatial_size)` is modelled as the
function sending channel `i` and multi-index `idx` to the stored value:
channel `i < ndims` holds the axis-`i` coordinate of the point, i.e.
the `idx i`-th `linspace` sample for axis `i`; the last channel holds
`1`.  (Only the default `homogeneous=True` form, which is the one the
transforms call, is embedded.) -/

/-- `np.linspace(-(d-1)/2*s, (d-1)/2*s, d)` evaluated at sample index
`i` (the step of a `d`-point linspace over that range is exactly `s`). -/
noncomputable def linspaceVal (d : ℕ) (s : ℝ) (i : ℕ) : ℝ :=
  -((d : ℝ) - 1) / 2 * s + (i : ℝ) * s

/-- Embedding of `create_grid(spatial_size, spacing)` (homogeneous):
`spacing or tuple(1.0 ...)` defaults a falsy spacing to all-ones. -/
noncomputable def create_grid (spatial_size : List ℕ) (spacing : Option (List ℝ)) :
    Fin (spatial_size.length + 1) → List ℕ → ℝ :=
  let sp : List ℝ :=
    match spacing with
    | none => spatial_size.map fun _ => 1
    | some l => if l.isEmpty then spatial_size.map (fun _ => (1 : ℝ)) else l
  fun i idx =>
    if h : (i : ℕ) < spatial_size.length then
      linspaceVal (spatial_size.get ⟨i, h⟩) (sp.getD i 1) (idx.getD i 0)
    else
      1

/-! ### `monai.transforms.utils.create_rotate` and friends

The homogeneous matrices are written as lists of rows over `ℝ`, matching
the `np.array([...])` literals of the source; `create_rotate` raises
`ValueError` when it falls through both rank branches, and for
`spatial_dims == 3` its accumulator starts as Python `None` (modelled by
the inner `Option`): with an empty angle sequence the function returns
`None` itself rather than a matrix. -/

/-- `A @ B` on row-list matrices (shapes as used by the source: square,
equal-sized). -/
noncomputable def matMulL (A B : List (List ℝ)) : List (List ℝ) :=
  A.map fun row =>
    (List.range (B.headD []).length).map fun j =>
      (List.range B.length).foldr
        (fun k acc => row.getD k 0 * (B.getD k []).getD j 0 + acc) 0

/-- Embedding of `create_rotate(spatial_dims, radians)`.  The 2D branch
returns only when at least one angle is supplied; `spatial_dims == 2`
with no angles falls through to the final `raise ValueError`.  The 3D
branch multiplies one factor per supplied angle (up to three) onto an
accumulator initialised to `None`. -/
noncomputable def create_rotate (spatial_dims : ℤ) (radians : List ℝ) :
    Except String (Option (List (List ℝ))) :=
  if spatial_dims = 2 ∧ 1 ≤ radians.length then
    let s := Real.sin (radians.getD 0 0)
    let c := Real.cos (radians.getD 0 0)
    .ok (some [[c, -s, 0], [s, c, 0], [0, 0, 1]])
  else if spatial_dims = 3 then
    let affine0 : Option (List (List ℝ)) := none
    let affine1 :=
      if 1 ≤ radians.length then
        let s := Real.sin (radians.getD 0 0)
        let c := Real.cos (radians.getD 0 0)
        some [[1, 0, 0, 0], [0, c, -s, 0], [0, s, c, 0], [0, 0, 0, 1]]
      else affine0
    let affine2 :=
      if 2 ≤ radians.length then
        let s := Real.sin (radians.getD 1 0)
        let c := Real.cos (radians.getD 1 0)
        -- `affine = affine @ ...`: `affine` is necessarily non-`None` here
        affine1.map (fun m => matMulL m [[c, 0, s, 0], [0, 1, 0, 0], [-s, 0, c, 0], [0, 0, 0, 1]])
      else affine1
    let affine3 :=
      if 3 ≤ radians.length then
        let s := Real.sin (radians.getD 2 0)
        let c := Real.cos (radians.getD 2 0)
        affine2.map (fun m => matMulL m [[c, -s, 0, 0], [s, c, 0, 0], [0, 0, 1, 0], [0, 0, 0, 1]])
      else affine2
    .ok affine3
  else
    .error "ValueError: create_rotate got unsupported spatial_dims/radians."

/-! ### `monai.transforms.utility.dictionary` — the keyed adapters

A Python `dict` is modelled as an association list in insertion order
with (as Python guarantees) pairwise-distinct keys.  `dict(data)` builds
a fresh dictionary with the same entries; `d[key]` raises `KeyError`
when the key is absent; assignment to an existing key keeps its
position, assignment to a new key appends.  Every adapter except
`DeleteKeysd` has the identical `__call__` body
`d = dict(data); for key in self.keys: d[key] = self.converter(d[key]); return d`,
so that body is embedded once, generic in the wrapped converter. -/

/-- `d[key]` lookup returning `none` when absent. -/
def dictGet? {V : Type} (d : List (String × V)) (k : String) : Option V :=
  (d.find? (fun p => p.1 = k)).map Prod.snd

/-- `d[key] = v`: replace in place if the key exists, else append. -/
def dictSet {V : Type} : List (String × V) → String → V → List (String × V)
  | [], k, v => [(k, v)]
  | (k0, v0) :: rest, k, v =>
      if k0 = k then (k0, v) :: rest else (k0, v0) :: dictSet rest k v

/-- The `for key in self.keys` loop of the adapters' `__call__`:
reads `d[key]` (raising `KeyError` when absent) and stores the
converter's output back under the same key. -/
def adapterLoop {V : Type} (converter : V → V) :
    List String → List (String × V) → Except String (List (String × V))
  | [], d => .ok d
  | k :: ks, d =>
      match dictGet? d k with
      | none => .error "KeyError"
      | some v => adapterLoop converter ks (dictSet d k (converter v))

/-- Embedding of the shared `__call__` body of `AsChannelFirstd`,
`AsChannelLastd`, `AddChanneld`, `RepeatChanneld`, `CastToTyped`,
`ToTensord` and `SqueezeDimd`: `d = dict(data)` (a fresh mapping with
the same entries — the association list itself), then the key loop. -/
def mapAdapterCall {V : Type} (keys : List String) (converter : V → V)
    (data : List (String × V)) : Except String (List (String × V)) :=
  adapterLoop converter keys data

/-- Embedding of `DeleteKeysd.__call__`: a fresh mapping holding exactly
the entries whose key is not in `self.keys`. -/
def deleteKeysCall {V : Type} (keys : List String) (data : List (String × V)) :
    List (String × V) :=
  data.filter (fun kv => !(keys.contains kv.1))

/-! ### `monai.transforms.transforms.ImageEndPadder`

The constructor's `assert`s (sequence `out_size`, string `mode`) are
enforced by the Lean types; `np.pad` is an external primitive, so the
call is embedded generically in the array representation `A`, the
shape observer and the pad primitive — the claims hold for every choice
of them. -/

/-- Fields stored by `ImageEndPadder.__init__`. -/
structure ImageEndPadder where
  out_size : List ℕ
  mode : String
  dtype : DType
deriving DecidableEq, Repr

/-- Embedding of `ImageEndPadder._determine_data_pad_width(data_shape)`:
`[(0, max(out_size[i] - data_shape[i], 0)) for i in range(len(out_size))]`;
indexing `data_shape[i]` raises `IndexError` when `data_shape` is
shorter than `out_size` (truncated-subtraction on `ℕ` is exactly
`max(x - y, 0)` on Python ints). -/
def ImageEndPadder.determine_data_pad_width (t : ImageEndPadder)
    (data_shape : List ℕ) : Except String (List (ℕ × ℕ)) :=
  if t.out_size.length ≤ data_shape.length then
    .ok ((List.range t.out_size.length).map fun i =>
      (0, t.out_size.getD i 0 - data_shape.getD i 0))
  else
    .error "IndexError"

/-- Embedding of `ImageEndPadder.__call__`: computes the pad widths from
`img.shape[2:]`, forces `(0, 0)` on axes 0 and 1, and delegates to the
external `np.pad` primitive with the stored `mode`. -/
def ImageEndPadder.call {A : Type} (npPad : A → List (ℕ × ℕ) → String → A)
    (shape : A → List ℕ) (t : ImageEndPadder) (img : A) : Except String A :=
  match t.determine_data_pad_width ((shape img).drop 2) with
  | .error e => .error e
  | .ok data_pad_width => .ok (npPad img ([(0, 0), (0, 0)] ++ data_pad_width) t.mode)

/-! ### `monai.transforms.transforms.AffineGrid`

The `(spatial_dims+1)`-square affine factors are `Matrix` values over
`ℝ`; `np.eye` is the identity matrix and `@` is matrix multiplication.
The source reshapes the grid to `(channels, -1)`, multiplies by the
affine and reshapes back: row-major flattening is a bijective
re-indexing of the spatial positions and the multiplication only mixes
the channel axis, so the value at channel `i` and spatial position
`idx` of the result is `∑ j, affine i j * grid j idx`, which is how the
grid application is written here.  `torch.tensor(...)` conversions and
the device placement preserve every value and are omitted;
`as_tensor_output` only selects the output representation. -/

/-- A rows-list literal as a square `Matrix` (entries default to `0`
outside the literal, which the uses below never reach). -/
noncomputable def matOfRows (n : ℕ) (rows : List (List ℝ)) : Matrix (Fin n) (Fin n) ℝ :=
  Matrix.of fun i j => (rows.getD i []).getD j 0

/-- `create_rotate` producing a `Matrix`, as consumed by
`AffineGrid.__call__`; a `None` result (3D, no angles) would make the
subsequent `affine @ None` raise `TypeError`. -/
noncomputable def create_rotateM (n : ℕ) (radians : List ℝ) :
    Except String (Matrix (Fin (n + 1)) (Fin (n + 1)) ℝ) :=
  match create_rotate (n : ℤ) radians with
  | .error e => .error e
  | .ok none => .error "TypeError: unsupported operand type for @: NoneType"
  | .ok (some rows) => .ok (matOfRows (n + 1) rows)

/-- Embedding of `create_shear(spatial_dims, coefs)` as rows; `coefs` is
right-padded with `0.0` to 2 (2D) or 6 (3D) entries, which `getD _ 0`
performs.  Other ranks raise `NotImplementedError`. -/
noncomputable def create_shear (spatial_dims : ℤ) (coefs : List ℝ) :
    Except String (List (List ℝ)) :=
  let c := fun i => coefs.getD i 0
  if spatial_dims = 2 then
    .ok [[1, c 0, 0], [c 1, 1, 0], [0, 0, 1]]
  else if spatial_dims = 3 then
    .ok [[1, c 0, c 1, 0], [c 2, 1, c 3, 0], [c 4, c 5, 1, 0], [0, 0, 0, 1]]
  else
    .error "NotImplementedError"

/-- `create_shear` producing a `Matrix`, as consumed by `AffineGrid`. -/
noncomputable def create_shearM (n : ℕ) (coefs : List ℝ) :
    Except String (Matrix (Fin (n + 1)) (Fin (n + 1)) ℝ) :=
  match create_shear (n : ℤ) coefs with
  | .error e => .error e
  | .ok rows => .ok (matOfRows (n + 1) rows)

/-- Embedding of `create_translate(spatial_dims, t)`: `np.eye(n+1)` with
`t[i]` written into column `n` of row `i` for `i < min(n, len(t))`. -/
noncomputable def create_translateM (n : ℕ) (t : List ℝ) :
    Matrix (Fin (n + 1)) (Fin (n + 1)) ℝ :=
  Matrix.of fun i j =>
    if (i : ℕ) < n ∧ (j : ℕ) = n ∧ (i : ℕ) < t.length then t.getD i 0
    else if i = j then 1 else 0

/-- Embedding of `create_scale(spatial_dims, s)`: `s` right-padded with
`1.0` to length `n` (which `getD _ 1` performs), as the diagonal of a
homogeneous matrix. -/
noncomputable def create_scaleM (n : ℕ) (s : List ℝ) :
    Matrix (Fin (n + 1)) (Fin (n + 1)) ℝ :=
  Matrix.of fun i j =>
    if i = j then (if (i : ℕ) < n then s.getD i 1 else 1) else 0

/-- Python truthiness of an optional parameter-list attribute:
`None` and the empty list are falsy. -/
def truthy (p : Option (List ℝ)) : Bool :=
  match p with
  | none => false
  | some l => !l.isEmpty

/-- One `if self.xxx_params: affine = affine @ create_xxx(...)` step of
`AffineGrid.__call__`, for a factor whose construction can raise. -/
noncomputable def mulStep (n : ℕ) (A : Matrix (Fin (n + 1)) (Fin (n + 1)) ℝ)
    (p : Option (List ℝ))
    (f : List ℝ → Except String (Matrix (Fin (n + 1)) (Fin (n + 1)) ℝ)) :
    Except String (Matrix (Fin (n + 1)) (Fin (n + 1)) ℝ) :=
  if truthy p then (f (p.getD [])).map (fun m => A * m) else .ok A

/-- Constructor-stored parameter groups of `AffineGrid`
(`as_tensor_output` and `device` do not affect any stored value). -/
structure AffineGrid where
  rotate_params : Option (List ℝ)
  shear_params : Option (List ℝ)
  translate_params : Option (List ℝ)
  scale_params : Option (List ℝ)

/-- Embedding of `AffineGrid.__call__(spatial_size=..., grid=None)`:
builds `create_grid(spatial_size)`, takes `spatial_dims` from the grid's
rank, composes `eye @ rotate @ shear @ translate @ scale` (skipping
falsy groups) and applies the affine over the channel axis of the grid
(see the section comment for the reshape bookkeeping). -/
noncomputable def AffineGrid.call (t : AffineGrid) (spatial_size : List ℕ) :
    Except String (Fin (spatial_size.length + 1) → List ℕ → ℝ) :=
  let n := spatial_size.length
  match mulStep n 1 t.rotate_params (create_rotateM n) with
  | .error e => .error e
  | .ok a1 =>
    match mulStep n a1 t.shear_params (create_shearM n) with
    | .error e => .error e
    | .ok a2 =>
      let a3 := if truthy t.translate_params
        then a2 * create_translateM n (t.translate_params.getD []) else a2
      let a4 := if truthy t.scale_params
        then a3 * create_scaleM n (t.scale_params.getD []) else a3
      .ok (fun i idx => ∑ j, a4 i j * create_grid spatial_size none j idx)

/-- `true` iff a constructor or call returned normally (no exception). -/
def exceptOk {α : Type} : Except String α → Bool
  | .ok _ => true
  | .error _ => false

/-- `true` iff the computation raised. -/
def exceptRaised {α : Type} : Except String α → Bool
  | .ok _ => false
  | .error _ => true

/-- `true` iff `create_rotate` returned an actual matrix (neither an
exception nor Python `None`). -/
def returnsMatrix (x : Except String (Option (List (List ℝ)))) : Bool :=
  match x with
  | .ok (some _) => true
  | _ => false

/-! ## Theorems settling the claims -/

/-- C1: the branch `Rand3DElastic.__call__` takes (deformation grid vs
identity grid) is decided by the value of `do_transform` the call finds
in the instance state — never by the gate drawn in the current call
(the branch is the same for every current-call draw, and equals the
deformation branch exactly when the stored `do_transform` is `True`);
in particular, on the first call after construction the identity-grid
branch is taken regardless of `prob`, because the constructor
initialises `do_transform` to `False`. -/
theorem c1_rand3delastic_branch_from_stored_gate :
    (∀ (t : Rand3DElastic) (g g' : ℚ), (t.call g).1 = (t.call g').1) ∧
    (∀ (t : Rand3DElastic) (g : ℚ),
      ((t.call g).1 = GridBranch.deform ↔ t.do_transform = true)) ∧
    (∀ (prob g : ℚ), ((Rand3DElastic.init prob).call g).1 = GridBranch.identity) := by
  refine ⟨fun t g g' => ?_, fun t g => ?_, fun prob g => ?_⟩
  · cases h : t.do_transform <;> simp [Rand3DElastic.call, h]
  · cases h : t.do_transform <;> simp [Rand3DElastic.call, h]
  · simp [Rand3DElastic.call, Rand3DElastic.init]

/-- C4 (counterexample): the claim says construction succeeds when
exactly one of `subtrahend`/`divisor` is supplied, but supplying only a
(numpy-array) `subtrahend` makes the constructor's assertion fail. -/
theorem c4_counterexample :
    exceptOk (IntensityNormalizer.init (some (PyVal.arr [0])) none DType.float32)
      = false := rfl

/-- C4 (amended): `IntensityNormalizer` construction succeeds exactly
when either both `subtrahend` and `divisor` are omitted, or both are
supplied as numpy arrays; it signals a validation error whenever at
least one of them is supplied and they are not both numpy arrays (in
particular when exactly one is supplied). -/
theorem c4_intensity_normalizer_init_ok_iff
    (s d : Option PyVal) (dt : DType) :
    exceptOk (IntensityNormalizer.init s d dt) = true ↔
      ((s = none ∧ d = none) ∨
        (∃ a b, s = some (PyVal.arr a) ∧ d = some (PyVal.arr b))) := by
  rcases s with _ | sv
  · rcases d with _ | dv
    · simp [IntensityNormalizer.init, exceptOk]
    · cases dv <;> simp [IntensityNormalizer.init, exceptOk, PyVal.isNdarray]
  · rcases d with _ | dv
    · cases sv <;> simp [IntensityNormalizer.init, exceptOk, PyVal.isNdarray]
    · cases sv <;> cases dv <;>
        simp [IntensityNormalizer.init, exceptOk, PyVal.isNdarray]

/-- C10: `ImageEndPadder` stores its `dtype` argument but never applies
it during a call, so for any array representation, any pad primitive and
any shape observer, two instances differing only in `dtype` return
identical outputs on every input image. -/
theorem c10_image_end_padder_ignores_dtype {A : Type}
    (npPad : A → List (ℕ × ℕ) → String → A) (shape : A → List ℕ)
    (out_size : List ℕ) (mode : String) (d1 d2 : DType) (img : A) :
    ImageEndPadder.call npPad shape ⟨out_size, mode, d1⟩ img =
      ImageEndPadder.call npPad shape ⟨out_size, mode, d2⟩ img := rfl

/-- C2 (counterexample): on the constant array `[5, 5]`,
`rescale_array(arr, 2, 9)` takes the degenerate branch and returns
`arr * minv = [10, 10]`, not the claimed `[2, 2]`. -/
theorem c2_counterexample :
    rescale_array [(5 : ℚ), 5] 2 9 = [10, 10] ∧
      rescale_array [(5 : ℚ), 5] 2 9 ≠ [2, 2] := by
  constructor <;> norm_num [rescale_array, listMin, listMax]

/-- A `min`-fold over elements all equal to the seed stays at the seed. -/
theorem foldl_min_all_eq (c : ℚ) :
    ∀ xs : List ℚ, (∀ x ∈ xs, x = c) → xs.foldl min c = c := by
  intro xs
  induction xs with
  | nil => intro _; rfl
  | cons a as ih =>
      intro h
      have ha : a = c := h a (List.mem_cons_self a as)
      rw [List.foldl_cons, ha, min_self]
      exact ih fun y hy => h y (List.mem_cons_of_mem a hy)

/-- A `max`-fold over elements all equal to the seed stays at the seed. -/
theorem foldl_max_all_eq (c : ℚ) :
    ∀ xs : List ℚ, (∀ x ∈ xs, x = c) → xs.foldl max c = c := by
  intro xs
  induction xs with
  | nil => intro _; rfl
  | cons a as ih =>
      intro h
      have ha : a = c := h a (List.mem_cons_self a as)
      rw [List.foldl_cons, ha, max_self]
      exact ih fun y hy => h y (List.mem_cons_of_mem a hy)

/-- All-equal lists fold to the common value under `min`. -/
theorem listMin_of_all_eq (arr : List ℚ) (c : ℚ) (h0 : arr ≠ [])
    (h : ∀ x ∈ arr, x = c) : listMin arr = c := by
  rcases arr with _ | ⟨x, xs⟩
  · exact absurd rfl h0
  · have hx : x = c := h x (List.mem_cons_self x xs)
    simp only [listMin, hx]
    exact foldl_min_all_eq c xs fun y hy => h y (List.mem_cons_of_mem x hy)

/-- All-equal lists fold to the common value under `max`. -/
theorem listMax_of_all_eq (arr : List ℚ) (c : ℚ) (h0 : arr ≠ [])
    (h : ∀ x ∈ arr, x = c) : listMax arr = c := by
  rcases arr with _ | ⟨x, xs⟩
  · exact absurd rfl h0
  · have hx : x = c := h x (List.mem_cons_self x xs)
    simp only [listMax, hx]
    exact foldl_max_all_eq c xs fun y hy => h y (List.mem_cons_of_mem x hy)

/-- C2 (amended): on a nonempty constant array of fives,
`rescale_array(arr, 2, 9)` takes the degenerate branch and returns the
array `arr * minv`, i.e. all elements exactly `10.0` — in particular no
element is produced by a division (no `NaN`). -/
theorem c2_rescale_constant_fives (arr : List ℚ) (h0 : arr ≠ [])
    (h : ∀ x ∈ arr, x = 5) :
    rescale_array arr 2 9 = arr.map (fun _ => 10) := by
  have hmin := listMin_of_all_eq arr 5 h0 h
  have hmax := listMax_of_all_eq arr 5 h0 h
  simp only [rescale_array, hmin, hmax, if_pos rfl]
  refine List.map_congr_left ?_
  intro x hx
  rw [h x hx]
  norm_num

/-- C2 (witness): the amended theorem applied to the concrete constant
array `[5, 5]`. -/
theorem c2_witness :
    rescale_array [(5 : ℚ), 5] 2 9 = [(5 : ℚ), 5].map (fun _ => 10) :=
  c2_rescale_constant_fives [(5 : ℚ), 5] (by simp) (by intro x hx; simpa using hx)

/-- C3 (counterexample): `create_rotate(2, [])` does not return a
rotation matrix — it falls through both rank branches and raises the
invalid-input error, although `spatial_dims = 2`; and `create_rotate(3, [])`
returns Python `None` rather than a matrix. -/
theorem c3_counterexample :
    create_rotate 2 [] =
      Except.error "ValueError: create_rotate got unsupported spatial_dims/radians." ∧
    create_rotate 3 [] = Except.ok none := by
  constructor <;> rfl

/-- C3 (amended): `create_rotate(spatial_dims, radians)` signals the
invalid-input error exactly when `spatial_dims` is neither 2 nor 3 *or*
`spatial_dims = 2` with an empty angle sequence; for `spatial_dims = 3`
with an empty sequence it returns `None` (no matrix, no error); for
`spatial_dims ∈ {2, 3}` with at least one angle it returns a
homogeneous rotation matrix. -/
theorem c3_create_rotate_cases (sd : ℤ) (radians : List ℝ) :
    (exceptRaised (create_rotate sd radians) = true ↔
        ((sd ≠ 2 ∧ sd ≠ 3) ∨ (sd = 2 ∧ radians = []))) ∧
    (sd = 3 → radians = [] → create_rotate sd radians = Except.ok none) ∧
    ((sd = 2 ∨ sd = 3) → radians ≠ [] →
      returnsMatrix (create_rotate sd radians) = true) := by
  refine ⟨?_, ?_, ?_⟩
  · by_cases h2 : sd = 2
    · subst h2
      rcases radians with _ | ⟨r, rs⟩
      · simp [create_rotate, exceptRaised]
      · simp [create_rotate, exceptRaised, Nat.succ_le_iff]
    · by_cases h3 : sd = 3
      · subst h3
        simp only [create_rotate]
        split_ifs <;> simp_all [exceptRaised]
      · simp [create_rotate, exceptRaised, h2, h3]
  · rintro rfl rfl
    rfl
  · rintro (rfl | rfl) hr
    · rcases radians with _ | ⟨r, rs⟩
      · exact absurd rfl hr
      · simp [create_rotate, returnsMatrix, Nat.succ_le_iff]
    · rcases radians with _ | ⟨r, rs⟩
      · exact absurd rfl hr
      · simp only [create_rotate]
        split_ifs <;> simp_all [returnsMatrix]

/-- C3 (witness): the amended theorem applied at `spatial_dims = 3`
with the empty angle sequence, at `spatial_dims = 0`, and at
`spatial_dims = 2` with one angle. -/
theorem c3_witness :
    create_rotate 3 ([] : List ℝ) = Except.ok none ∧
    exceptRaised (create_rotate 0 ([] : List ℝ)) = true ∧
    returnsMatrix (create_rotate 2 [(0 : ℝ)]) = true :=
  ⟨(c3_create_rotate_cases 3 []).2.1 rfl rfl,
   (c3_create_rotate_cases 0 []).1.mpr (Or.inl (by constructor <;> decide)),
   (c3_create_rotate_cases 2 [0]).2.2 (Or.inl rfl) (by simp)⟩

/-- A `min`-fold commutes with a monotone map. -/
theorem foldl_min_map (f : ℚ → ℚ) (hf : Monotone f) :
    ∀ (xs : List ℚ) (x : ℚ), (xs.map f).foldl min (f x) = f (xs.foldl min x) := by
  intro xs
  induction xs with
  | nil => intro _; rfl
  | cons a as ih =>
      intro x
      simp only [List.map_cons, List.foldl_cons]
      rw [← hf.map_min, ih]

/-- A `max`-fold commutes with a monotone map. -/
theorem foldl_max_map (f : ℚ → ℚ) (hf : Monotone f) :
    ∀ (xs : List ℚ) (x : ℚ), (xs.map f).foldl max (f x) = f (xs.foldl max x) := by
  intro xs
  induction xs with
  | nil => intro _; rfl
  | cons a as ih =>
      intro x
      simp only [List.map_cons, List.foldl_cons]
      rw [← hf.map_max, ih]

/-- C6: on a non-constant array (minimum strictly below maximum),
`rescale_array(arr, 0, 1)` maps positions holding the array minimum to
exactly `0`, positions holding the maximum to exactly `1` (so the
output's minimum is `0` and its maximum is `1`), and applying
`rescale_array` twice with the bounds `0, 1` equals applying it once. -/
theorem c6_rescale_unit_range_idempotent (arr : List ℚ)
    (h : listMin arr < listMax arr) :
    listMin (rescale_array arr 0 1) = 0 ∧
    listMax (rescale_array arr 0 1) = 1 ∧
    rescale_array (rescale_array arr 0 1) 0 1 = rescale_array arr 0 1 := by
  rcases arr with _ | ⟨x, xs⟩
  · simp [listMin, listMax] at h
  have hne : listMin (x :: xs) ≠ listMax (x :: xs) := ne_of_lt h
  have hd : 0 < listMax (x :: xs) - listMin (x :: xs) := by linarith
  have hres : rescale_array (x :: xs) 0 1 =
      (x :: xs).map (fun v =>
        (v - listMin (x :: xs)) / (listMax (x :: xs) - listMin (x :: xs))) := by
    simp [rescale_array, hne]
  have hf : Monotone (fun v : ℚ =>
      (v - listMin (x :: xs)) / (listMax (x :: xs) - listMin (x :: xs))) := by
    intro a b hab
    have h1 : a - listMin (x :: xs) ≤ b - listMin (x :: xs) := by linarith
    exact div_le_div_of_nonneg_right h1 hd.le
  have hminout : listMin (rescale_array (x :: xs) 0 1) = 0 := by
    rw [hres]
    have : listMin ((x :: xs).map (fun v =>
        (v - listMin (x :: xs)) / (listMax (x :: xs) - listMin (x :: xs)))) =
        (listMin (x :: xs) - listMin (x :: xs)) /
          (listMax (x :: xs) - listMin (x :: xs)) := by
      simp only [List.map_cons, listMin]
      exact foldl_min_map _ hf xs x
    rw [this, sub_self, zero_div]
  have hmaxout : listMax (rescale_array (x :: xs) 0 1) = 1 := by
    rw [hres]
    have : listMax ((x :: xs).map (fun v =>
        (v - listMin (x :: xs)) / (listMax (x :: xs) - listMin (x :: xs)))) =
        (listMax (x :: xs) - listMin (x :: xs)) /
          (listMax (x :: xs) - listMin (x :: xs)) := by
      simp only [List.map_cons, listMax]
      exact foldl_max_map _ hf xs x
    rw [this, div_self (ne_of_gt hd)]
  refine ⟨hminout, hmaxout, ?_⟩
  set B := rescale_array (x :: xs) 0 1 with hB
  simp [rescale_array, hminout, hmaxout]

/-- C6 (witness): the theorem applied to the concrete non-constant
array `[1, 3]`. -/
theorem c6_witness :
    listMin [(1 : ℚ), 3] < listMax [(1 : ℚ), 3] ∧
    (listMin (rescale_array [(1 : ℚ), 3] 0 1) = 0 ∧
     listMax (rescale_array [(1 : ℚ), 3] 0 1) = 1 ∧
     rescale_array (rescale_array [(1 : ℚ), 3] 0 1) 0 1 =
       rescale_array [(1 : ℚ), 3] 0 1) :=
  ⟨by norm_num [listMin, listMax],
   c6_rescale_unit_range_idempotent [(1 : ℚ), 3] (by norm_num [listMin, listMax])⟩

/-- C9: for every integer label list and `num_classes ≥ 1`, the one-hot
row `one_hot` produces at each position has length `num_classes`, holds
`1` exactly at index `v mod num_classes` (where `v` is the label at that
position), and `0` at every other index. -/
theorem c9_one_hot (labels : List ℤ) (nc : ℕ) (h : 1 ≤ nc) (i : ℕ)
    (hi : i < labels.length) :
    ((one_hot labels nc).getD i []).length = nc ∧
    ((one_hot labels nc).getD i []).getD ((labels.getD i 0) % (nc : ℤ)).toNat 0 = 1 ∧
    (∀ j, j < nc → j ≠ ((labels.getD i 0) % (nc : ℤ)).toNat →
      ((one_hot labels nc).getD i []).getD j 0 = 0) := by
  have hncz : ((nc : ℤ)) ≠ 0 := by exact_mod_cast Nat.one_le_iff_ne_zero.mp h
  have hpos : (0 : ℤ) < (nc : ℤ) := by exact_mod_cast h
  set v := labels.getD i 0 with hv
  have hmod0 : 0 ≤ v % (nc : ℤ) := Int.emod_nonneg v hncz
  have hmodlt : v % (nc : ℤ) < (nc : ℤ) := Int.emod_lt_of_pos v hpos
  have hk : (v % (nc : ℤ)).toNat < nc := by omega
  have hlen1 : i < ((labels.map (fun w => w % (nc : ℤ))).map
      (fun w => (npEye nc).getD w.toNat [])).length := by simpa using hi
  have hrow : (one_hot labels nc).getD i [] =
      (npEye nc).getD (v % (nc : ℤ)).toNat [] := by
    simp only [one_hot]
    rw [List.getD_eq_getElem _ _ hlen1]
    simp only [List.getElem_map]
    rw [hv, List.getD_eq_getElem labels 0 hi]
  have heyelen : (v % (nc : ℤ)).toNat < (npEye nc).length := by
    simpa [npEye] using hk
  have heye : (npEye nc).getD (v % (nc : ℤ)).toNat [] =
      (List.range nc).map (fun j => if (v % (nc : ℤ)).toNat = j then (1 : ℤ) else 0) := by
    rw [List.getD_eq_getElem _ _ heyelen]
    simp only [npEye, List.getElem_map]
    congr 1
    simp
  refine ⟨?_, ?_, ?_⟩
  · rw [hrow, heye]; simp
  · rw [hrow, heye]
    have : (v % (nc : ℤ)).toNat <
        ((List.range nc).map
          (fun j => if (v % (nc : ℤ)).toNat = j then (1 : ℤ) else 0)).length := by
      simpa using hk
    rw [List.getD_eq_getElem _ _ this]
    simp
  · intro j hj hne
    rw [hrow, heye]
    have : j < ((List.range nc).map
        (fun j => if (v % (nc : ℤ)).toNat = j then (1 : ℤ) else 0)).length := by
      simpa using hj
    rw [List.getD_eq_getElem _ _ this]
    simp [List.getElem_range, Ne.symm hne]

/-- C9 (witness): the theorem applied to the labels `[5, -2]` with
three classes, at position 1 (label `-2`, one-hot index `1`). -/
theorem c9_witness :
    ((one_hot [(5 : ℤ), -2] 3).getD 1 []).length = 3 ∧
    ((one_hot [(5 : ℤ), -2] 3).getD 1 []).getD
      (([(5 : ℤ), -2].getD 1 0) % ((3 : ℕ) : ℤ)).toNat 0 = 1 ∧
    (∀ j, j < 3 → j ≠ (([(5 : ℤ), -2].getD 1 0) % ((3 : ℕ) : ℤ)).toNat →
      ((one_hot [(5 : ℤ), -2] 3).getD 1 []).getD j 0 = 0) :=
  c9_one_hot [(5 : ℤ), -2] 3 (by norm_num) 1 (by norm_num)

/-- The loop entries of `copypaste_arrays` are `cpAxis` of the per-axis
inputs. -/
theorem cpLoop_getElem :
    ∀ (ssl dsl scl dcl dl : List ℤ) (i : ℕ)
      (hi : i < (cpLoop ssl dsl scl dcl dl).length),
      (cpLoop ssl dsl scl dcl dl)[i] =
        cpAxis (ssl.getD i 0) (dsl.getD i 0) (scl.getD i 0) (dcl.getD i 0)
          (dl.getD i 0) := by
  intro ssl
  induction ssl with
  | nil => intro dsl scl dcl dl i hi; simp [cpLoop] at hi
  | cons s ssl ih =>
      intro dsl scl dcl dl i hi
      rcases dsl with _ | ⟨d, dsl⟩
      · simp [cpLoop] at hi
      rcases scl with _ | ⟨sc, scl⟩
      · simp [cpLoop] at hi
      rcases dcl with _ | ⟨dc, dcl⟩
      · simp [cpLoop] at hi
      rcases dl with _ | ⟨dim, dl⟩
      · simp [cpLoop] at hi
      cases i with
      | zero => simp [cpLoop]
      | succ n =>
          simp only [cpLoop, List.getElem_cons_succ, List.getD_cons_succ]
          exact ih dsl scl dcl dl n (by simpa [cpLoop] using hi)

/-- Within the loop range, the slice tuples returned by
`copypaste_arrays` are the loop entries. -/
theorem copypaste_getD_of_lt
    (ssl dsl scl dcl dl : List ℤ) (i : ℕ)
    (hi : i < (cpLoop ssl dsl scl dcl dl).length) :
    (copypaste_arrays ssl dsl scl dcl dl).1.getD i none =
      ((cpLoop ssl dsl scl dcl dl)[i]).1 ∧
    (copypaste_arrays ssl dsl scl dcl dl).2.getD i none =
      ((cpLoop ssl dsl scl dcl dl)[i]).2 := by
  constructor <;>
  · simp only [copypaste_arrays]
    rw [List.getD_append _ _ _ _ (by simpa using hi)]
    rw [List.getD_eq_getElem _ _ (by simpa using hi)]
    simp

/-- C7 (counterexample): with in-bounds centers but a zero `dims` entry
and source/destination axes of different extents, both returned slices
are `slice(None)`, which select 3 elements from the source axis but 5
from the destination axis — the lengths differ. -/
theorem c7_counterexample :
    sliceLen 3 ((copypaste_arrays [3] [5] [1] [2] [0]).1.getD 0 none) = 3 ∧
    sliceLen 5 ((copypaste_arrays [3] [5] [1] [2] [0]).2.getD 0 none) = 5 ∧
    sliceLen 3 ((copypaste_arrays [3] [5] [1] [2] [0]).1.getD 0 none) ≠
      sliceLen 5 ((copypaste_arrays [3] [5] [1] [2] [0]).2.getD 0 none) := by
  refine ⟨?_, ?_, ?_⟩ <;> decide

/-- C7 (amended): for every axis on which `copypaste_arrays` actually
computes a bounded window (a nonzero `dims` entry within the zipped
range) and whose centers lie within the respective array bounds, the
source-side and destination-side slices select the same number of
elements.  (On axes with a falsy `dims` entry both sides get the
full-axis slice `slice(None)`, whose selected lengths are the
respective axis extents and can differ, as the counterexample shows.) -/
theorem c7_copypaste_equal_window_lengths
    (ssl dsl scl dcl dl : List ℤ) (i : ℕ)
    (hi : i < (cpLoop ssl dsl scl dcl dl).length)
    (hsc0 : 0 ≤ scl.getD i 0) (hscs : scl.getD i 0 ≤ ssl.getD i 0)
    (hdc0 : 0 ≤ dcl.getD i 0) (hdcs : dcl.getD i 0 ≤ dsl.getD i 0)
    (hdim : dl.getD i 0 ≠ 0) :
    sliceLen (ssl.getD i 0) ((copypaste_arrays ssl dsl scl dcl dl).1.getD i none) =
      sliceLen (dsl.getD i 0) ((copypaste_arrays ssl dsl scl dcl dl).2.getD i none) := by
  obtain ⟨h1, h2⟩ := copypaste_getD_of_lt ssl dsl scl dcl dl i hi
  rw [h1, h2, cpLoop_getElem ssl dsl scl dcl dl i hi]
  simp only [cpAxis, if_pos hdim, npclip, sliceLen]
  generalize Int.fdiv (dl.getD i 0) 2 = q
  omega

/-- C7 (witness): the amended theorem applied to the docstring example
of `copypaste_arrays` (6×6 arrays, centers (3,2) and (2,1), window
(3,4)), on axis 0. -/
theorem c7_witness :
    sliceLen (([6, 6] : List ℤ).getD 0 0)
        ((copypaste_arrays [6, 6] [6, 6] [3, 2] [2, 1] [3, 4]).1.getD 0 none) =
      sliceLen (([6, 6] : List ℤ).getD 0 0)
        ((copypaste_arrays [6, 6] [6, 6] [3, 2] [2, 1] [3, 4]).2.getD 0 none) :=
  c7_copypaste_equal_window_lengths [6, 6] [6, 6] [3, 2] [2, 1] [3, 4] 0
    (by decide) (by decide) (by decide) (by decide) (by decide) (by decide)

/-- `d[k]` on a dictionary whose first entry has key `k`. -/
theorem dictGet?_cons_eq {V : Type} (k : String) (v0 : V)
    (rest : List (String × V)) :
    dictGet? ((k, v0) :: rest) k = some v0 := by
  simp [dictGet?]

/-- `d[k]` skips a first entry with a different key. -/
theorem dictGet?_cons_ne {V : Type} (k0 k : String) (v0 : V)
    (rest : List (String × V)) (h : k0 ≠ k) :
    dictGet? ((k0, v0) :: rest) k = dictGet? rest k := by
  simp [dictGet?, h]

/-- A key lookup succeeds exactly when the key occurs in the dictionary. -/
theorem dictGet?_isSome_iff {V : Type} (d : List (String × V)) (k : String) :
    (dictGet? d k).isSome ↔ k ∈ d.map Prod.fst := by
  induction d with
  | nil => simp [dictGet?]
  | cons kv rest ih =>
      obtain ⟨k0, v0⟩ := kv
      by_cases h : k0 = k
      · subst h
        simp [dictGet?_cons_eq]
      · rw [dictGet?_cons_ne k0 k v0 rest h]
        simp only [List.map_cons, List.mem_cons, ih]
        constructor
        · exact Or.inr
        · rintro (hh | hh)
          · exact absurd hh.symm h
          · exact hh

/-- A guarded entry-map whose guard hits no entry is the identity. -/
theorem map_if_eq_self {V : Type} (d : List (String × V)) (k : String)
    (g : String × V → String × V) (h : ∀ kv ∈ d, kv.1 ≠ k) :
    d.map (fun kv => if kv.1 = k then g kv else kv) = d := by
  have he : ∀ kv ∈ d, (fun kv => if kv.1 = k then g kv else kv) kv = id kv := by
    intro kv hkv
    simp [h kv hkv]
  rw [List.map_congr_left he, List.map_id]

/-- On a duplicate-free dictionary containing `k ↦ v`, storing
`conv v` under `k` rewrites exactly the `k` entry in place. -/
theorem dictSet_conv_eq_map {V : Type} (conv : V → V) :
    ∀ (d : List (String × V)) (k : String) (v : V),
      (d.map Prod.fst).Nodup → dictGet? d k = some v →
      dictSet d k (conv v) =
        d.map (fun kv => if kv.1 = k then (kv.1, conv kv.2) else kv) := by
  intro d
  induction d with
  | nil => intro k v _ hget; simp [dictGet?] at hget
  | cons kv0 rest ih =>
      intro k v hnd hget
      obtain ⟨k0, v0⟩ := kv0
      by_cases h : k0 = k
      · subst h
        rw [dictGet?_cons_eq] at hget
        obtain rfl : v = v0 := by simpa using hget.symm
        simp only [dictSet, if_pos rfl, List.map_cons, if_pos rfl]
        have hk0 : ∀ kv ∈ rest, kv.1 ≠ k0 := by
          intro kv hkv hk
          have : k0 ∈ rest.map Prod.fst := hk ▸ List.mem_map_of_mem Prod.fst hkv
          exact (List.nodup_cons.mp (by simpa using hnd)).1 this
        rw [map_if_eq_self rest k0 _ hk0]
        simp
      · rw [dictGet?_cons_ne k0 k v0 rest h] at hget
        simp only [dictSet, if_neg h, List.map_cons, if_neg h]
        rw [ih k v (List.nodup_cons.mp (by simpa using hnd)).2 hget]

/-- C5 (counterexample): two failures of the claim's universal
quantifiers over "every adapter ... every input mapping".  First, an
adapter whose key is absent from the mapping raises `KeyError` instead
of returning a mapping (`keys=['a']` against the empty mapping).
Second, a duplicated entry in the key list applies the wrapped
transform once per occurrence: with `keys=['a','a']` and converter
`(· + 1)` on `{'a': 0}`, the returned value at `'a'` is `2`, not the
claimed "wrapped transform's output on the original value" `0 + 1`. -/
theorem c5_counterexample :
    mapAdapterCall ["a"] (fun v : ℤ => v) [] = Except.error "KeyError" ∧
    mapAdapterCall ["a", "a"] (fun v : ℤ => v + 1) [("a", 0)] = .ok [("a", 2)] ∧
    mapAdapterCall ["a", "a"] (fun v : ℤ => v + 1) [("a", 0)] ≠ .ok [("a", 0 + 1)] := by
  refine ⟨rfl, rfl, ?_⟩
  intro h
  rw [show mapAdapterCall ["a", "a"] (fun v : ℤ => v + 1) [("a", 0)] =
      .ok [("a", 2)] from rfl] at h
  simp at h

/-- The shared adapter `__call__` body on a duplicate-free key list,
against a mapping (duplicate-free keys, as Python dictionaries
guarantee) that contains all the listed keys: it returns the entrywise
rewrite of the input. -/
theorem mapAdapterCall_eq_of_nodup {V : Type} (keys : List String) (conv : V → V) :
    ∀ data : List (String × V),
      keys.Nodup → (data.map Prod.fst).Nodup →
      (∀ k ∈ keys, (dictGet? data k).isSome) →
      mapAdapterCall keys conv data =
        .ok (data.map (fun kv => if kv.1 ∈ keys then (kv.1, conv kv.2) else kv)) := by
  induction keys with
  | nil =>
      intro data _ _ _
      simp [mapAdapterCall, adapterLoop]
  | cons k ks ih =>
      intro data hknd hdnd hsub
      have hk : (dictGet? data k).isSome := hsub k (List.mem_cons_self k ks)
      obtain ⟨v, hv⟩ := Option.isSome_iff_exists.mp hk
      have hstep : mapAdapterCall (k :: ks) conv data =
          adapterLoop conv ks (dictSet data k (conv v)) := by
        simp [mapAdapterCall, adapterLoop, hv]
      rw [hstep]
      have hmap := dictSet_conv_eq_map conv data k v hdnd hv
      have hkeys : (dictSet data k (conv v)).map Prod.fst = data.map Prod.fst := by
        rw [hmap, List.map_map]
        apply List.map_congr_left
        intro kv _
        by_cases h : kv.1 = k <;> simp [h]
      have hdnd' : ((dictSet data k (conv v)).map Prod.fst).Nodup := by
        rw [hkeys]; exact hdnd
      have hsub' : ∀ k' ∈ ks, (dictGet? (dictSet data k (conv v)) k').isSome := by
        intro k' hk'
        rw [dictGet?_isSome_iff, hkeys, ← dictGet?_isSome_iff]
        exact hsub k' (List.mem_cons_of_mem k hk')
      have hih := ih (dictSet data k (conv v)) (List.nodup_cons.mp hknd).2 hdnd' hsub'
      rw [show adapterLoop conv ks (dictSet data k (conv v)) =
            mapAdapterCall ks conv (dictSet data k (conv v)) from rfl, hih]
      congr 1
      rw [hmap, List.map_map]
      apply List.map_congr_left
      intro kv hkv
      have hknot : k ∉ ks := (List.nodup_cons.mp hknd).1
      by_cases h : kv.1 = k
      · simp [Function.comp, h, hknot]
      · by_cases h2 : kv.1 ∈ ks <;> simp [Function.comp, h, h2]

/-- `DeleteKeysd` removes exactly the listed keys: looking up a listed
key in its output fails, and looking up any other key returns exactly
what the input mapping held (the retained entries are the original
ones, untouched). -/
theorem deleteKeys_dictGet? {V : Type} (keys : List String)
    (data : List (String × V)) (k : String) :
    dictGet? (deleteKeysCall keys data) k =
      if k ∈ keys then none else dictGet? data k := by
  induction data with
  | nil => by_cases hkk : k ∈ keys <;> simp [deleteKeysCall, dictGet?, hkk]
  | cons kv rest ih =>
      obtain ⟨k0, v0⟩ := kv
      by_cases hk0 : k0 ∈ keys
      · have hdrop : deleteKeysCall keys ((k0, v0) :: rest) =
            deleteKeysCall keys rest := by
          simp [deleteKeysCall, List.filter_cons, hk0]
        rw [hdrop, ih]
        by_cases hkk : k ∈ keys
        · simp [hkk]
        · have hne : k0 ≠ k := fun h => hkk (h ▸ hk0)
          simp [hkk, dictGet?_cons_ne k0 k v0 rest hne]
      · have hkeep : deleteKeysCall keys ((k0, v0) :: rest) =
            (k0, v0) :: deleteKeysCall keys rest := by
          simp [deleteKeysCall, List.filter_cons, hk0]
        rw [hkeep]
        by_cases hkk : k0 = k
        · subst hkk
          simp [hk0, dictGet?_cons_eq]
        · rw [dictGet?_cons_ne k0 k v0 _ hkk, ih, dictGet?_cons_ne k0 k v0 rest hkk]

/-- `DeleteKeysd` keeps the non-deleted keys in their original order:
the output's key list is the input's key list with the listed keys
filtered out. -/
theorem deleteKeys_keys {V : Type} (keys : List String)
    (data : List (String × V)) :
    (deleteKeysCall keys data).map Prod.fst =
      (data.map Prod.fst).filter (fun k => !(keys.contains k)) := by
  induction data with
  | nil => rfl
  | cons kv rest ih =>
      obtain ⟨k0, v0⟩ := kv
      by_cases hk0 : k0 ∈ keys
      · simp only [deleteKeysCall, List.filter_cons] at *
        simp [hk0]
        simpa using ih
      · simp only [deleteKeysCall, List.filter_cons] at *
        simp [hk0]
        simpa using ih

/-- C5 (amended): for every dictionary adapter and every input mapping,
the call leaves the caller's mapping as it was and returns a freshly
built mapping.  `DeleteKeysd` returns the mapping holding exactly the
input entries whose key is not in its list, each with its original
value and in the original order (lookups of non-listed keys are
unchanged, listed keys are absent).  Every other adapter, when its key
list is duplicate-free and the input mapping contains all its keys,
returns a mapping with the same key set in which each listed key holds
the wrapped transform's output on the original value and every other
entry is passed through unchanged; when a listed key is absent it
raises `KeyError` instead of returning, and a duplicated listed key
receives the transform once per occurrence. -/
theorem c5_adapter_contract {V : Type} (keys : List String) (conv : V → V)
    (data : List (String × V)) :
    (keys.Nodup → (data.map Prod.fst).Nodup →
      (∀ k ∈ keys, (dictGet? data k).isSome) →
      mapAdapterCall keys conv data =
        .ok (data.map (fun kv => if kv.1 ∈ keys then (kv.1, conv kv.2) else kv))) ∧
    (∀ k : String, dictGet? (deleteKeysCall keys data) k =
      if k ∈ keys then none else dictGet? data k) ∧
    (deleteKeysCall keys data).map Prod.fst =
      (data.map Prod.fst).filter (fun k => !(keys.contains k)) :=
  ⟨fun h1 h2 h3 => mapAdapterCall_eq_of_nodup keys conv data h1 h2 h3,
   fun k => deleteKeys_dictGet? keys data k,
   deleteKeys_keys keys data⟩

/-- C5 (witness): the amended theorem applied to the adapter keys
`['a']` with converter `(· + 1)` on the mapping `{'a': 1, 'b': 2}`,
both for the entrywise rewrite and for key deletion. -/
theorem c5_witness :
    mapAdapterCall ["a"] (fun v : ℚ => v + 1) [("a", (1 : ℚ)), ("b", 2)] =
      .ok ([("a", (1 : ℚ)), ("b", 2)].map
        (fun kv => if kv.1 ∈ ["a"] then (kv.1, kv.2 + 1) else kv)) ∧
    dictGet? (deleteKeysCall ["a"] [("a", (1 : ℚ)), ("b", 2)]) "b" =
      (if "b" ∈ ["a"] then none else dictGet? [("a", (1 : ℚ)), ("b", 2)] "b") :=
  ⟨(c5_adapter_contract ["a"] (fun v => v + 1) [("a", 1), ("b", 2)]).1
      (by decide) (by decide) (by decide),
   (c5_adapter_contract ["a"] (fun v => v + 1) [("a", 1), ("b", 2)]).2.1 "b"⟩

/-- C8: `AffineGrid` called with all four parameter groups unset builds
the plain `create_grid(spatial_size)` mesh and multiplies it by the
identity affine, so its output is value-for-value identical to
`create_grid(spatial_size)`. -/
theorem c8_affine_grid_identity (spatial_size : List ℕ) :
    AffineGrid.call ⟨none, none, none, none⟩ spatial_size =
      Except.ok (create_grid spatial_size none) := by
  simp only [AffineGrid.call, mulStep, truthy]
  simp only [Bool.false_eq_true, if_false]
  congr 1
  funext i idx
  simp [Matrix.one_apply, ite_mul, Finset.sum_ite_eq]

/-- C8 (witness): the theorem instantiated on the concrete spatial size
`[2, 3]`. -/
theorem c8_witness :
    AffineGrid.call ⟨none, none, none, none⟩ [2, 3] =
      Except.ok (create_grid [2, 3] none) :=
  c8_affine_grid_identity [2, 3]

/-- C1 (witness): a freshly constructed `Rand3DElastic` with `prob = 1`
still takes the identity-grid branch on its first call. -/
theorem c1_witness :
    ((Rand3DElastic.init 1).call 0).1 = GridBranch.identity :=
  c1_rand3delastic_branch_from_stored_gate.2.2 1 0

/-- C4 (witness): the amended theorem instantiated with both arguments
supplied as numpy arrays (construction succeeds). -/
theorem c4_witness :
    exceptOk (IntensityNormalizer.init (some (PyVal.arr [1]))
      (some (PyVal.arr [2])) DType.float32) = true :=
  (c4_intensity_normalizer_init_ok_iff (some (PyVal.arr [1]))
      (some (PyVal.arr [2])) DType.float32).mpr
    (Or.inr ⟨[1], [2], rfl, rfl⟩)

/-- C10 (witness): the theorem instantiated at a concrete array
representation, pad primitive, shape and image. -/
theorem c10_witness :
    ImageEndPadder.call (fun (a : List ℚ) _ _ => a) (fun _ => [1, 1, 4])
      ⟨[4], "constant", DType.float32⟩ [1, 2] =
    ImageEndPadder.call (fun (a : List ℚ) _ _ => a) (fun _ => [1, 1, 4])
      ⟨[4], "constant", DType.float64⟩ [1, 2] :=
  c10_image_end_padder_ignores_dtype (fun a _ _ => a) (fun _ => [1, 1, 4])
    [4] "constant" DType.float32 DType.float64 [1, 2]

end MonaiSpec
